import Mathlib

/-!
Shallow embedding of the Open3D-ML repository fragment consisting of
`ml3d/vis/labellut.py` (the `LabelLUT` class) and
`ml3d/torch/pipelines/semantic_segmentation.py` (the
`SemanticSegmentation` pipeline: `update_tests`, `run_train`,
`load_ckpt`, `save_ckpt`, `get_batcher`).

Python floats appearing as colour components and possibility values are
embedded as exact rationals; Python dicts are embedded as insertion-ordered
association lists with replace-in-place update, matching CPython dict
semantics; the filesystem touched by checkpointing is a finite map from
path strings to checkpoint records.
-/

namespace Open3DML

/-! ### `ml3d/vis/labellut.py` -/

/-- `LabelLUT.Label`: a named, valued, coloured label entry. -/
structure Label where
  name : String
  value : Int
  color : List ℚ
deriving Repr, DecidableEq

/-- The 34-entry palette `LabelLUT.COLORS['default']`. -/
def defaultColors : List (List ℚ) :=
  [[0, 0, 0], [0.96078431, 0.58823529, 0.39215686],
   [0.96078431, 0.90196078, 0.39215686],
   [0.58823529, 0.23529412, 0.11764706],
   [0.70588235, 0.11764706, 0.31372549], [1, 0, 0],
   [0.11764706, 0.11764706, 1], [0.78431373, 0.15686275, 1],
   [0.35294118, 0.11764706, 0.58823529], [1, 0, 1],
   [1, 0.58823529, 1], [0.29411765, 0, 0.29411765],
   [0.29411765, 0, 0.68627451], [0, 0.78431373, 1],
   [0.19607843, 0.47058824, 1], [0, 0.68627451, 0],
   [0, 0.23529412, 0.52941176],
   [0.31372549, 0.94117647, 0.58823529],
   [0.58823529, 0.94117647, 1],
   [0, 0, 1], [1.0, 1.0, 0.25], [0.5, 1.0, 0.25],
   [0.25, 1.0, 0.25], [0.25, 1.0, 0.5], [0.25, 1.0, 1.25],
   [0.25, 0.5, 1.25], [0.25, 0.25, 1.0], [0.125, 0.125, 0.125],
   [0.25, 0.25, 0.25], [0.375, 0.375, 0.375], [0.5, 0.5, 0.5],
   [0.625, 0.625, 0.625], [0.75, 0.75, 0.75],
   [0.875, 0.875, 0.875]]

/-- The 12-entry palette `LabelLUT.COLORS['spectrum']`. -/
def spectrumColors : List (List ℚ) :=
  [[0.0, 0.7529411764705882, 0.7803921568627451],
   [0.3176470588235294, 0.26666666666666666, 0.8274509803921568],
   [0.9098039215686274, 0.5294117647058824, 0.10196078431372549],
   [0.8549019607843137, 0.20392156862745098, 0.5647058823529412],
   [0.5647058823529412, 0.5372549019607843, 0.9803921568627451],
   [0.2784313725490196, 0.8862745098039215, 0.43529411764705883],
   [0.15294117647058825, 0.5019607843137255, 0.9215686274509803],
   [0.43529411764705883, 0.2196078431372549, 0.6941176470588235],
   [0.8745098039215686, 0.7490196078431373, 0.011764705882352941],
   [0.796078431372549, 0.43529411764705883, 0.06274509803921569],
   [0.14901960784313725, 0.5529411764705883, 0.4235294117647059],
   [0.6078431372549019, 0.9254901960784314, 0.32941176470588235]]

/-- `LabelLUT.COLORS[colormap]`: the class-level palette dictionary; a
lookup with any key other than the two present ones is a Python
`KeyError`, embedded as `none`. -/
def COLORS (colormap : String) : Option (List (List ℚ)) :=
  if colormap = "default" then some defaultColors
  else if colormap = "spectrum" then some spectrumColors
  else none

/-- The fallback colour used by `add_label` once the palette is
exhausted. -/
def fallbackColor : List ℚ := [0.85, 1.0, 1.0]

/-- A `LabelLUT` instance: `_next_color`, the insertion-ordered `labels`
dict keyed by the label value, and the selected palette `colors`. -/
structure LabelLUT where
  next_color : Nat
  labels : List (Int × Label)
  colors : List (List ℚ)
deriving Repr, DecidableEq

/-- CPython dict assignment `d[k] = v`: replace in place when the key is
present, append otherwise. -/
def dictInsert (d : List (Int × Label)) (k : Int) (v : Label) :
    List (Int × Label) :=
  if d.any (fun p => p.1 = k) then
    d.map (fun p => if p.1 = k then (k, v) else p)
  else d ++ [(k, v)]

/-- CPython dict read `d[k]` (first, hence only, binding of the key). -/
def dictLookup : List (Int × Label) → Int → Option Label
  | [], _ => none
  | p :: d, k => if p.1 = k then some p.2 else dictLookup d k

/-- `LabelLUT.add_label(name, value, color)`: choose the colour (explicit
argument, next palette entry, or the fallback once the palette is
exhausted; only a consumed palette entry advances `_next_color`) and
store the `Label` under key `value`. -/
def add_label (lut : LabelLUT) (name : String) (value : Int)
    (color : Option (List ℚ)) : LabelLUT :=
  match color with
  | some c =>
      { lut with labels := dictInsert lut.labels value ⟨name, value, c⟩ }
  | none =>
      if lut.next_color ≥ lut.colors.length then
        { lut with labels :=
            dictInsert lut.labels value ⟨name, value, fallbackColor⟩ }
      else
        { lut with
          labels := dictInsert lut.labels value
            ⟨name, value, lut.colors.getD lut.next_color []⟩
          next_color := lut.next_color + 1 }

/-- CPython dict read `label_to_names[val]` for the constructor's
name dictionary (every key looked up is present there). -/
def lookupName : List (Int × String) → Int → String
  | [], _ => ""
  | p :: m, k => if p.1 = k then p.2 else lookupName m k

/-- `LabelLUT.__init__(label_to_names, colormap)`: select the palette
(`KeyError`, i.e. `none`, on an unknown colormap name), start with an
empty table, and when `label_to_names` is given, `add_label` each entry
in increasing key order. -/
def LabelLUT.init (label_to_names : Option (List (Int × String)))
    (colormap : String) : Option LabelLUT :=
  (COLORS colormap).map fun cols =>
    let base : LabelLUT := ⟨0, [], cols⟩
    match label_to_names with
    | none => base
    | some m =>
        (List.insertionSort (· ≤ ·) (m.map Prod.fst)).foldl
          (fun lut k => add_label lut (lookupName m k) k none) base

/-- A sequence of `add_label` calls applied to a freshly constructed
empty `LabelLUT` carrying the palette `cols`. -/
def applyOps (cols : List (List ℚ))
    (ops : List (String × Int × Option (List ℚ))) : LabelLUT :=
  ops.foldl (fun lut op => add_label lut op.1 op.2.1 op.2.2) ⟨0, [], cols⟩

/-- The number of `add_label` calls in `ops` that pass no explicit
colour. -/
def countColorless (ops : List (String × Int × Option (List ℚ))) : Nat :=
  (ops.filter (fun op => op.2.2 = none)).length

/-! ### `ml3d/torch/pipelines/semantic_segmentation.py`: checkpointing

The checkpoint record is the exact dict built by `save_ckpt`; the blob
types of the model, optimizer and scheduler state dicts are parameters
`M`, `O`, `S`.  The filesystem is a finite map from path strings to
checkpoint records; `torch.save`/`torch.load` round-trip a record
unchanged. -/

/-- The dict `save_ckpt` serializes: exactly the four fields `epoch`,
`model_state_dict`, `optimizer_state_dict`, `scheduler_state_dict`. -/
structure Ckpt (M O S : Type) where
  epoch : Nat
  model_state_dict : M
  optimizer_state_dict : O
  scheduler_state_dict : S
deriving Repr, DecidableEq

/-- The pipeline state touched by `load_ckpt`/`save_ckpt`: the configured
log directory and the model, and the optimizer and scheduler attributes,
which exist (`hasattr`) only once `run_train` has assigned them. -/
structure Pipeline (M O S : Type) where
  logs_dir : String
  device : String
  model : M
  optimizer : Option O
  scheduler : Option S
deriving Repr, DecidableEq

/-- A filesystem fragment: a finite map from paths to checkpoint
records. -/
abbrev FS (M O S : Type) : Type := List (String × Ckpt M O S)

variable {M O S : Type}

/-- Read the record stored at `path`, `none` when the file is absent. -/
def fsRead (fs : FS M O S) (path : String) : Option (Ckpt M O S) :=
  match fs with
  | [] => none
  | p :: fs => if p.1 = path then some p.2 else fsRead fs path

/-- `torch.save(record, path)`: (over)write the file at `path`. -/
def fsWrite (fs : FS M O S) (path : String) (c : Ckpt M O S) : FS M O S :=
  (path, c) :: (fs.filter (fun p => ¬ p.1 = path))

/-- The reversed decimal digit characters of `n` (little endian). -/
def decimalDigitsRev (n : Nat) : List Char :=
  (Nat.digits 10 n).map (fun d => Char.ofNat (48 + d))

/-- The Python format `f'\x7bepoch:05d\x7d'`: the decimal rendering of
`n` left-padded with zeros to at least five characters. -/
def pad5 (n : Nat) : String :=
  String.mk (List.replicate (5 - (decimalDigitsRev n).length) '0'
    ++ (decimalDigitsRev n).reverse)

/-- The checkpoint directory `join(self.cfg.logs_dir, 'checkpoint')`. -/
def ckpt_dir (logs_dir : String) : String := logs_dir ++ "/checkpoint"

/-- The file path `save_ckpt(epoch)` writes to. -/
def ckptSavePath (logs_dir : String) (epoch : Nat) : String :=
  ckpt_dir logs_dir ++ "/" ++ ("ckpt_" ++ pad5 epoch ++ ".pth")

/-- `save_ckpt(self, epoch)`: serialize the four-field record to
`<logs_dir>/checkpoint/ckpt_<epoch:05d>.pth`.  Reading the optimizer or
scheduler attribute before `run_train` assigned it is a Python
`AttributeError`, embedded as `none`. -/
def save_ckpt (p : Pipeline M O S) (fs : FS M O S) (epoch : Nat) :
    Option (FS M O S) :=
  match p.optimizer, p.scheduler with
  | some o, some s =>
      some (fsWrite fs (ckptSavePath p.logs_dir epoch)
        ⟨epoch, p.model, o, s⟩)
  | _, _ => none

/-- Modelled from the spec: `latest_torch_ckpt` (imported from
`ml3d/torch/utils`, not among the given sources) returns the path of the
latest checkpoint file inside the given directory, or `None` when the
directory holds no checkpoint.  Embedded as the greatest checkpoint path
present in the filesystem under that directory (zero-padded epoch
numbers make the lexicographically greatest path the latest one). -/
def latest_torch_ckpt (fs : FS M O S) (dir : String) : Option String :=
  ((fs.map Prod.fst).filter
    (fun q => q.startsWith (dir ++ "/ckpt_"))).max?

/-- The checkpoint path `load_ckpt` settles on: the explicit argument
when given, otherwise the latest checkpoint of the checkpoint
directory. -/
def resolve_ckpt_path (fs : FS M O S) (dir : String)
    (ckpt_path : Option String) : Option String :=
  match ckpt_path with
  | some q => some q
  | none => latest_torch_ckpt fs dir

/-- The `FileNotFoundError` raised by `load_ckpt`. -/
inductive CkptError where
  | fileNotFound (path : String)
deriving Repr, DecidableEq

/-- The tail of `load_ckpt` past the path-resolution prologue: raise
`FileNotFoundError` when the file is missing, otherwise load the model
state dict and, for each of the optimizer and scheduler, load its state
dict when the attribute exists (the saved record always carries both
keys). -/
def load_ckpt_from (p : Pipeline M O S) (fs : FS M O S) (path : String) :
    Except CkptError (Pipeline M O S) :=
  match fsRead fs path with
  | none => Except.error (CkptError.fileNotFound path)
  | some ckpt =>
      Except.ok { p with
        model := ckpt.model_state_dict
        optimizer := p.optimizer.map (fun _ => ckpt.optimizer_state_dict)
        scheduler := p.scheduler.map (fun _ => ckpt.scheduler_state_dict) }

/-- `load_ckpt(self, ckpt_path, is_resume)`: when no path is given,
look up the latest checkpoint; when none exists or `is_resume` is false,
initialize from scratch (return with nothing loaded); otherwise check
existence and load. -/
def load_ckpt (p : Pipeline M O S) (fs : FS M O S)
    (ckpt_path : Option String) (is_resume : Bool) :
    Except CkptError (Pipeline M O S) :=
  match ckpt_path with
  | some q => load_ckpt_from p fs q
  | none =>
      match latest_torch_ckpt fs (ckpt_dir p.logs_dir) with
      | some q => if is_resume then load_ckpt_from p fs q else Except.ok p
      | none => Except.ok p

/-! ### `run_train`: the epoch loop skeleton

`run_train` iterates `for epoch in range(0, cfg.max_epoch + 1)` and at
the end of each iteration calls `save_ckpt(epoch)` exactly when
`epoch % cfg.save_ckpt_freq == 0`.  The loop body's training and
validation steps live in the external framework; the trace records the
epochs iterated and the epochs checkpointed. -/

/-- The observable trace of `run_train`'s epoch loop. -/
structure TrainTrace where
  epochsRun : List Nat
  ckptsSaved : List Nat
deriving Repr, DecidableEq

/-- One iteration of `run_train`'s epoch loop: run the epoch, then
checkpoint when `epoch % cfg.save_ckpt_freq == 0`. -/
def train_epoch_step (save_ckpt_freq : Nat) (tr : TrainTrace)
    (epoch : Nat) : TrainTrace :=
  let tr1 : TrainTrace := { tr with epochsRun := tr.epochsRun ++ [epoch] }
  if epoch % save_ckpt_freq = 0 then
    { tr1 with ckptsSaved := tr1.ckptsSaved ++ [epoch] }
  else tr1

/-- The epoch loop of `run_train`: one iteration per element of
`range(0, max_epoch + 1)`. -/
def run_train_loop (max_epoch save_ckpt_freq : Nat) : TrainTrace :=
  (List.range (max_epoch + 1)).foldl (train_epoch_step save_ckpt_freq)
    ⟨[], []⟩

/-! ### `get_batcher` -/

/-- The batcher objects `get_batcher` can construct. -/
inductive Batcher where
  | defaultBatcher
  | concatBatcher (device : String) (model_name : String)
deriving Repr, DecidableEq

/-- `get_batcher(self, device, split)`: dispatch on
`self.model.cfg.batcher`, returning `None` on any unrecognized name. -/
def get_batcher (batcher_name : String) (device : String)
    (model_name : String) : Option Batcher :=
  if batcher_name = "DefaultBatcher" then some Batcher.defaultBatcher
  else if batcher_name = "ConcatBatcher" then
    some (Batcher.concatBatcher device model_name)
  else none

/-! ### `update_tests`: test-time probability accumulation

Probabilities are per-cloud matrices (point-major lists of per-class
rows), labels per-cloud integer lists.  The external model supplies
`update_probs` (accumulation of one sampled window into the cloud's
buffers) and `preprocess`, of which only the `proj_inds` entry of the
returned attribute dict is consulted; both are abstract parameters. -/

/-- The hooks `update_tests` calls on the external model: `num_classes`
from the model config, `model.update_probs`, and the `proj_inds` entry
(when any) of `model.preprocess(dataset_split.get_data(cloud_id), ...)`.
`ι` and `ρ` are the types of the data-loader batch and of the network
output. -/
structure ModelHooks (ι ρ : Type) where
  num_classes : Nat
  update_probs : ι → ρ → List (List ℚ) → List Int →
    List (List ℚ) × List Int
  proj_inds : Nat → Option (List Nat)

/-- The pipeline attributes `update_tests` reads and writes. -/
structure TestState where
  curr_cloud_id : Int
  test_probs : List (List (List ℚ))
  test_labels : List (List Int)
  ori_test_probs : List (List (List ℚ))
  ori_test_labels : List (List Int)
  complete_infer : Bool

/-- The sampler attributes `update_tests` reads: the split name, the
index of the cloud currently sampled, and the per-cloud possibility
arrays. -/
structure Sampler where
  split : String
  cloud_id : Nat
  possibilities : List (List ℚ)

variable {ι ρ : Type}

/-- The coverage threshold `end_threshold = 0.5` of `update_tests`. -/
def end_threshold : ℚ := 0.5

/-- The opening branch of `update_tests`: on a cloud change, record the
new cloud id, append zero-initialized probability and label buffers
sized by the cloud's possibility array, and clear `complete_infer`. -/
def begin_cloud (mh : ModelHooks ι ρ) (st : TestState) (sampler : Sampler) :
    TestState :=
  if st.curr_cloud_id ≠ (sampler.cloud_id : Int) then
    let num_points := (sampler.possibilities.getD sampler.cloud_id []).length
    { st with
      curr_cloud_id := (sampler.cloud_id : Int)
      test_probs := st.test_probs ++
        [List.replicate num_points (List.replicate mh.num_classes 0)]
      test_labels := st.test_labels ++ [List.replicate num_points 0]
      complete_infer := false }
  else st

/-- The accumulation step of `update_tests`: `model.update_probs` folds
this window's results into the current cloud's buffers. -/
def accumulate (mh : ModelHooks ι ρ) (st : TestState) (sampler : Sampler)
    (inputs : ι) (results : ρ) : TestState :=
  let st1 := begin_cloud mh st sampler
  let pr := mh.update_probs inputs results
    (st1.test_probs.getD sampler.cloud_id [])
    (st1.test_labels.getD sampler.cloud_id [])
  { st1 with
    test_probs := st1.test_probs.set sampler.cloud_id pr.1
    test_labels := st1.test_labels.set sampler.cloud_id pr.2 }

/-- The projection indices used at finalization: the `proj_inds` of the
cloud's preprocessed data, defaulting to `np.arange` over the buffer. -/
def finalize_proj (mh : ModelHooks ι ρ) (cloud_id : Nat)
    (probs : List (List ℚ)) : List Nat :=
  (mh.proj_inds cloud_id).getD (List.range probs.length)

/-- `update_tests(self, sampler, inputs, results)`: handle a cloud
change, accumulate this window via `model.update_probs`, and — on the
test split, once every possibility entry of the current cloud exceeds
`end_threshold` — append the buffers projected through `proj_inds` to
`ori_test_probs`/`ori_test_labels` and set `complete_infer`. -/
def update_tests (mh : ModelHooks ι ρ) (st : TestState) (sampler : Sampler)
    (inputs : ι) (results : ρ) : TestState :=
  let poss := sampler.possibilities.getD sampler.cloud_id []
  let st2 := accumulate mh st sampler inputs results
  if sampler.split = "test" ∧
      (poss.filter (fun x => end_threshold < x)).length = poss.length then
    let probs := st2.test_probs.getD sampler.cloud_id []
    let labels := st2.test_labels.getD sampler.cloud_id []
    let proj := finalize_proj mh sampler.cloud_id probs
    { st2 with
      ori_test_probs := st2.ori_test_probs ++
        [proj.map (fun i => probs.getD i [])]
      ori_test_labels := st2.ori_test_labels ++
        [proj.map (fun i => labels.getD i 0)]
      complete_infer := true }
  else st2

/-! ### Concrete fixtures

Small closed instances used to evaluate the generic statements on
concrete inputs. -/

/-- A pipeline over `Nat`-coded state blobs with both the optimizer and
the scheduler assigned. -/
def pipelineW : Pipeline Nat Nat Nat := ⟨"logs", "cpu", 0, some 1, some 2⟩

/-- Trivial model hooks: accumulation leaves the buffers unchanged and
preprocessing yields no `proj_inds`. -/
def modelHooksW : ModelHooks Unit Unit :=
  ⟨2, fun _ _ probs labels => (probs, labels), fun _ => none⟩

/-- The fresh test-time state `run_test` initializes. -/
def testStateW : TestState := ⟨-1, [], [], [], [], false⟩

/-- A test-split sampler over one cloud of one point whose possibility
already exceeds the threshold. -/
def samplerW : Sampler := ⟨"test", 0, [[1]]⟩

/-! ## Theorems -/

/-! ### General helper lemmas -/

theorem length_filter_eq_length_iff {α : Type} (l : List α) (p : α → Bool) :
    (l.filter p).length = l.length ↔ ∀ a ∈ l, p a := by
  constructor
  · intro h
    exact List.filter_eq_self.mp ((List.filter_sublist l).eq_of_length h)
  · intro h
    rw [List.filter_eq_self.mpr h]

theorem self_ne_append_singleton {α : Type} (l : List α) (a : α) :
    l ++ [a] ≠ l := by
  intro h
  have := congrArg List.length h
  simp at this

/-! ### Helper lemmas about the `run_train` epoch-loop trace -/

theorem foldl_train_epoch_step (freq : Nat) (l : List Nat) (tr : TrainTrace) :
    l.foldl (train_epoch_step freq) tr =
      ⟨tr.epochsRun ++ l,
       tr.ckptsSaved ++ l.filter (fun e => e % freq = 0)⟩ := by
  induction l generalizing tr with
  | nil => simp
  | cons e l ih =>
    rw [List.foldl_cons, ih]
    by_cases h : e % freq = 0 <;>
      simp [train_epoch_step, h, List.filter_cons]

theorem run_train_loop_eq (N freq : Nat) :
    run_train_loop N freq =
      ⟨List.range (N + 1),
       (List.range (N + 1)).filter (fun e => e % freq = 0)⟩ := by
  rw [run_train_loop, foldl_train_epoch_step]
  simp

/-- C5 (counterexample): with `max_epoch = 1` the loop body runs twice,
not once: `run_train` iterates `range(0, max_epoch + 1)`. -/
theorem run_train_epoch_count_cex :
    (run_train_loop 1 20).epochsRun.length ≠ 1 := by decide

/-- C5 (amended): for every configuration with `max_epoch = N`,
`run_train` runs the training-epoch loop exactly `N + 1` times, once for
each epoch `0, 1, ..., N`. -/
theorem run_train_epoch_count (N freq : Nat) :
    (run_train_loop N freq).epochsRun = List.range (N + 1) ∧
    (run_train_loop N freq).epochsRun.length = N + 1 := by
  rw [run_train_loop_eq]
  simp

/-- C9: during `run_train` (with a positive checkpoint frequency, as the
Python modulo would otherwise raise `ZeroDivisionError`), `save_ckpt`
runs exactly at the loop epochs divisible by `save_ckpt_freq`; in
particular a checkpoint is always written at epoch `0`. -/
theorem run_train_saves_on_freq (N freq : Nat) (hf : 0 < freq) :
    (∀ e, e ∈ (run_train_loop N freq).ckptsSaved ↔
      (e ≤ N ∧ e % freq = 0)) ∧
    0 ∈ (run_train_loop N freq).ckptsSaved := by
  have hmem : ∀ e, e ∈ (run_train_loop N freq).ckptsSaved ↔
      (e ≤ N ∧ e % freq = 0) := by
    intro e
    rw [run_train_loop_eq]
    simp [List.mem_filter, List.mem_range, Nat.lt_succ_iff]
  exact ⟨hmem, (hmem 0).mpr ⟨Nat.zero_le N, Nat.zero_mod freq⟩⟩

/-- C9 (witness): at `max_epoch = 4`, `save_ckpt_freq = 2`, epoch 0 is
checkpointed. -/
theorem run_train_saves_on_freq_witness :
    0 < 2 ∧ 0 ∈ (run_train_loop 4 2).ckptsSaved :=
  ⟨by decide, (run_train_saves_on_freq 4 2 (by decide)).2⟩

/-- C10: `get_batcher` yields the default batcher for the name
`'DefaultBatcher'`, a concat batcher built from the device and model
name for `'ConcatBatcher'`, and `None` for every other name. -/
theorem get_batcher_dispatch (device model_name : String) :
    get_batcher "DefaultBatcher" device model_name =
      some Batcher.defaultBatcher ∧
    get_batcher "ConcatBatcher" device model_name =
      some (Batcher.concatBatcher device model_name) ∧
    (∀ s : String, s ≠ "DefaultBatcher" → s ≠ "ConcatBatcher" →
      get_batcher s device model_name = none) := by
  refine ⟨rfl, rfl, fun s h1 h2 => ?_⟩
  simp [get_batcher, h1, h2]

/-- C10 (witness): the three dispatch outcomes at concrete names. -/
theorem get_batcher_dispatch_witness :
    get_batcher "DefaultBatcher" "cpu" "KPFCNN" =
      some Batcher.defaultBatcher ∧
    get_batcher "ConcatBatcher" "cpu" "KPFCNN" =
      some (Batcher.concatBatcher "cpu" "KPFCNN") ∧
    get_batcher "OtherBatcher" "cpu" "KPFCNN" = none := by
  obtain ⟨h1, h2, h3⟩ := get_batcher_dispatch "cpu" "KPFCNN"
  exact ⟨h1, h2, h3 "OtherBatcher" (by decide) (by decide)⟩

/-! ### Helper lemmas about the filesystem and checkpoint paths -/

theorem fsRead_fsWrite_self (fs : FS M O S) (path : String)
    (c : Ckpt M O S) : fsRead (fsWrite fs path c) path = some c := by
  simp [fsRead, fsWrite]

theorem fsRead_filter_ne (fs : FS M O S) (path q : String) (h : q ≠ path) :
    fsRead (fs.filter (fun p => ¬ p.1 = path)) q = fsRead fs q := by
  induction fs with
  | nil => rfl
  | cons p fs ih =>
    rw [List.filter_cons]
    by_cases hp : p.1 = path
    · have hq : ¬ p.1 = q := fun hc => h (by rw [← hc, hp])
      rw [if_neg (by simp [hp]), ih]
      simp only [fsRead]
      rw [if_neg hq]
    · rw [if_pos (by simp [hp])]
      simp only [fsRead]
      by_cases hq : p.1 = q
      · rw [if_pos hq, if_pos hq]
      · rw [if_neg hq, if_neg hq, ih]

theorem fsRead_fsWrite_other (fs : FS M O S) (path q : String)
    (c : Ckpt M O S) (h : q ≠ path) :
    fsRead (fsWrite fs path c) q = fsRead fs q := by
  have hq : ¬ path = q := fun hc => h hc.symm
  simp only [fsWrite, fsRead, hq, if_false]
  exact fsRead_filter_ne fs path q h

theorem fsRead_isSome_of_mem_keys (fs : FS M O S) (q : String)
    (h : q ∈ fs.map Prod.fst) : (fsRead fs q).isSome := by
  induction fs with
  | nil => simp at h
  | cons p fs ih =>
    by_cases hp : p.1 = q
    · simp [fsRead, hp]
    · have : q ∈ fs.map Prod.fst := by
        rcases List.mem_cons.mp h with h1 | h1
        · exact absurd h1.symm hp
        · exact h1
      simp [fsRead, hp, ih this]

theorem latest_torch_ckpt_isSome (fs : FS M O S) (dir q : String)
    (h : latest_torch_ckpt fs dir = some q) : (fsRead fs q).isSome := by
  have hq : q ∈ (fs.map Prod.fst).filter
      (fun r => r.startsWith (dir ++ "/ckpt_")) :=
    List.max?_mem (fun _ _ => max_choice _ _) h
  exact fsRead_isSome_of_mem_keys fs q (List.mem_of_mem_filter hq)

theorem pad5_length_of_lt (e : Nat) (h : e < 100000) :
    (pad5 e).length = 5 := by
  have hlen : (decimalDigitsRev e).length ≤ 5 := by
    rw [decimalDigitsRev, List.length_map]
    rcases Nat.eq_zero_or_pos e with h0 | h0
    · simp [h0]
    · rw [Nat.digits_len 10 e (by norm_num) h0.ne']
      have : Nat.log 10 e < 5 :=
        Nat.log_lt_of_lt_pow h0.ne' (by norm_num at h ⊢; exact h)
      omega
  show (String.mk _).length = 5
  simp only [String.length]
  simp [Nat.sub_add_cancel hlen]

/-- C3: `save_ckpt(epoch)`, run with the optimizer and scheduler
assigned, writes to `<logs_dir>/checkpoint/ckpt_<epoch:05d>.pth` (five
zero-padded digits for every epoch below `100000`) a single record whose
fields are exactly `epoch`, `model_state_dict`, `optimizer_state_dict`
and `scheduler_state_dict`, and touches no other file. -/
theorem save_ckpt_record (p : Pipeline M O S) (fs : FS M O S) (e : Nat)
    (o : O) (s : S) (ho : p.optimizer = some o) (hs : p.scheduler = some s) :
    ∃ fs', save_ckpt p fs e = some fs' ∧
      fsRead fs' (ckptSavePath p.logs_dir e) =
        some ⟨e, p.model, o, s⟩ ∧
      (∀ q, q ≠ ckptSavePath p.logs_dir e → fsRead fs' q = fsRead fs q) ∧
      (e < 100000 → (pad5 e).length = 5) := by
  refine ⟨fsWrite fs (ckptSavePath p.logs_dir e) ⟨e, p.model, o, s⟩,
    ?_, ?_, ?_, fun h => pad5_length_of_lt e h⟩
  · simp [save_ckpt, ho, hs]
  · exact fsRead_fsWrite_self fs _ _
  · exact fun q hq => fsRead_fsWrite_other fs _ q _ hq

/-- C3 (witness): saving epoch 3 on a concrete pipeline over an empty
filesystem. -/
theorem save_ckpt_record_witness :
    ∃ fs', save_ckpt pipelineW [] 3 = some fs' ∧
      fsRead fs' (ckptSavePath pipelineW.logs_dir 3) =
        some ⟨3, pipelineW.model, 1, 2⟩ ∧
      (∀ q, q ≠ ckptSavePath pipelineW.logs_dir 3 →
        fsRead fs' q = fsRead ([] : FS Nat Nat Nat) q) ∧
      (3 < 100000 → (pad5 3).length = 5) :=
  save_ckpt_record pipelineW [] 3 1 2 rfl rfl

/-- C2: `load_ckpt` raises `FileNotFoundError` exactly when the path it
resolves to (the explicit argument, else the latest checkpoint of the
checkpoint directory) is non-`None` and absent from the filesystem; and
with `ckpt_path=None`, when no latest checkpoint exists or `is_resume`
is false, it returns with the pipeline unchanged. -/
theorem load_ckpt_error_iff (p : Pipeline M O S) (fs : FS M O S)
    (cp : Option String) (r : Bool) :
    ((∃ q, load_ckpt p fs cp r =
        Except.error (CkptError.fileNotFound q)) ↔
      (∃ q, resolve_ckpt_path fs (ckpt_dir p.logs_dir) cp = some q ∧
        fsRead fs q = none)) ∧
    (cp = none →
      (latest_torch_ckpt fs (ckpt_dir p.logs_dir) = none ∨ r = false) →
      load_ckpt p fs cp r = Except.ok p) := by
  constructor
  · cases cp with
    | some q0 =>
        simp only [load_ckpt, resolve_ckpt_path, load_ckpt_from]
        cases hr : fsRead fs q0 with
        | none => simp [hr]
        | some c => simp [hr]
    | none =>
        simp only [load_ckpt, resolve_ckpt_path]
        cases hl : latest_torch_ckpt fs (ckpt_dir p.logs_dir) with
        | none => simp
        | some q0 =>
            have hsome := latest_torch_ckpt_isSome fs _ q0 hl
            cases hr : fsRead fs q0 with
            | none => rw [hr] at hsome; simp at hsome
            | some c =>
                cases r with
                | false => simp [hr]
                | true => simp [load_ckpt_from, hr]
  · rintro rfl h
    simp only [load_ckpt]
    rcases h with h | h
    · rw [h]
    · cases hl : latest_torch_ckpt fs (ckpt_dir p.logs_dir) with
      | none => rfl
      | some q0 => rw [h]; rfl

/-- C2 (witness): with no explicit path, an empty checkpoint directory
and `is_resume = False`, `load_ckpt` returns leaving the concrete
pipeline untouched. -/
theorem load_ckpt_error_iff_witness :
    load_ckpt pipelineW ([] : FS Nat Nat Nat) none false =
      Except.ok pipelineW :=
  (load_ckpt_error_iff pipelineW [] none false).2 rfl (Or.inl rfl)

/-- C4: loading the checkpoint file produced by `save_ckpt(e)` onto any
pipeline whose optimizer and scheduler are assigned restores the model,
optimizer and scheduler state to exactly the saved values. -/
theorem ckpt_roundtrip (p : Pipeline M O S) (fs : FS M O S) (e : Nat)
    (o : O) (s : S) (fs' : FS M O S) (q : Pipeline M O S) (o0 : O) (s0 : S)
    (r : Bool)
    (ho : p.optimizer = some o) (hs : p.scheduler = some s)
    (hsave : save_ckpt p fs e = some fs')
    (hqo : q.optimizer = some o0) (hqs : q.scheduler = some s0) :
    load_ckpt q fs' (some (ckptSavePath p.logs_dir e)) r =
      Except.ok { q with model := p.model, optimizer := some o,
                         scheduler := some s } := by
  simp only [save_ckpt, ho, hs, Option.some.injEq] at hsave
  subst hsave
  simp [load_ckpt, load_ckpt_from, fsRead_fsWrite_self, hqo, hqs]

/-- C4 (witness): a concrete save at epoch 3 followed by a load onto a
pipeline with different states restores the saved values. -/
theorem ckpt_roundtrip_witness :
    load_ckpt (⟨"other", "cpu", 7, some 8, some 9⟩ : Pipeline Nat Nat Nat)
      (fsWrite [] (ckptSavePath "logs" 3) ⟨3, 0, 1, 2⟩)
      (some (ckptSavePath "logs" 3)) true =
      Except.ok ⟨"other", "cpu", 0, some 1, some 2⟩ :=
  ckpt_roundtrip pipelineW [] 3 1 2 _ _ 8 9 true rfl rfl rfl rfl rfl

/-! ### Helper lemmas about the label dictionary -/

theorem any_key_eq_true_iff (d : List (Int × Label)) (k : Int) :
    d.any (fun p => p.1 = k) = true ↔ k ∈ d.map Prod.fst := by
  rw [List.any_eq_true]
  constructor
  · rintro ⟨p, hp, he⟩
    exact List.mem_map.mpr ⟨p, hp, by simpa using he⟩
  · intro h
    rcases List.mem_map.mp h with ⟨p, hp, he⟩
    exact ⟨p, hp, by simpa using he⟩

theorem dictLookup_map_replace (d : List (Int × Label)) (k : Int) (v : Label)
    (h : k ∈ d.map Prod.fst) :
    dictLookup (d.map (fun p => if p.1 = k then (k, v) else p)) k =
      some v := by
  induction d with
  | nil => simp at h
  | cons p d ih =>
    by_cases hp : p.1 = k
    · simp [dictLookup, hp]
    · have hd : k ∈ d.map Prod.fst := by
        rcases List.mem_cons.mp h with h1 | h1
        · exact absurd h1.symm hp
        · exact h1
      simp only [List.map_cons, if_neg hp, dictLookup]
      exact ih hd

theorem dictLookup_append_new (d : List (Int × Label)) (k : Int) (v : Label)
    (h : k ∉ d.map Prod.fst) :
    dictLookup (d ++ [(k, v)]) k = some v := by
  induction d with
  | nil => simp [dictLookup]
  | cons p d ih =>
    have hp : ¬ p.1 = k := fun hc => h (by simp [hc])
    have hd : k ∉ d.map Prod.fst := fun hc => h (by simp [hc])
    simp only [List.cons_append, dictLookup]
    rw [if_neg hp]
    exact ih hd

theorem dictInsert_lookup (d : List (Int × Label)) (k : Int) (v : Label) :
    dictLookup (dictInsert d k v) k = some v := by
  rw [dictInsert]
  by_cases h : k ∈ d.map Prod.fst
  · rw [if_pos ((any_key_eq_true_iff d k).mpr h)]
    exact dictLookup_map_replace d k v h
  · rw [if_neg (fun hc => h ((any_key_eq_true_iff d k).mp hc))]
    exact dictLookup_append_new d k v h

theorem dictLookup_map_replace_other (d : List (Int × Label)) (k k' : Int)
    (v : Label) (h : ¬ k' = k) :
    dictLookup (d.map (fun p => if p.1 = k then (k, v) else p)) k' =
      dictLookup d k' := by
  induction d with
  | nil => rfl
  | cons p d ih =>
    by_cases hp : p.1 = k
    · simp only [List.map_cons, if_pos hp, dictLookup]
      rw [if_neg (fun hc : k = k' => h hc.symm),
        if_neg (fun hc : p.1 = k' => h (by rw [← hc, hp]))]
      exact ih
    · simp only [List.map_cons, if_neg hp, dictLookup]
      by_cases hq : p.1 = k'
      · rw [if_pos hq, if_pos hq]
      · rw [if_neg hq, if_neg hq]
        exact ih

theorem dictLookup_append_other (d : List (Int × Label)) (k k' : Int)
    (v : Label) (h : ¬ k' = k) :
    dictLookup (d ++ [(k, v)]) k' = dictLookup d k' := by
  induction d with
  | nil =>
    simp only [List.nil_append, dictLookup]
    rw [if_neg (fun hc : k = k' => h hc.symm)]
  | cons p d ih =>
    simp only [List.cons_append, dictLookup]
    by_cases hq : p.1 = k'
    · rw [if_pos hq, if_pos hq]
    · rw [if_neg hq, if_neg hq]
      exact ih

theorem dictInsert_lookup_other (d : List (Int × Label)) (k k' : Int)
    (v : Label) (h : ¬ k' = k) :
    dictLookup (dictInsert d k v) k' = dictLookup d k' := by
  rw [dictInsert]
  by_cases hm : d.any (fun p => p.1 = k) = true
  · rw [if_pos hm]
    exact dictLookup_map_replace_other d k k' v h
  · rw [if_neg hm]
    exact dictLookup_append_other d k k' v h

theorem map_fst_dictInsert_mem (d : List (Int × Label)) (k : Int)
    (v : Label) (h : k ∈ d.map Prod.fst) :
    (dictInsert d k v).map Prod.fst = d.map Prod.fst := by
  rw [dictInsert, if_pos ((any_key_eq_true_iff d k).mpr h), List.map_map]
  apply List.map_congr_left
  intro p _
  by_cases hc : p.1 = k
  · simp [hc]
  · simp [hc]

theorem map_fst_dictInsert_not_mem (d : List (Int × Label)) (k : Int)
    (v : Label) (h : k ∉ d.map Prod.fst) :
    (dictInsert d k v).map Prod.fst = d.map Prod.fst ++ [k] := by
  rw [dictInsert, if_neg (fun hc => h ((any_key_eq_true_iff d k).mp hc))]
  simp

theorem dictInsert_value_inv (d : List (Int × Label)) (k : Int)
    (n : String) (c : List ℚ)
    (hd : ∀ p ∈ d, (Prod.snd p).value = p.1) :
    ∀ p ∈ dictInsert d k ⟨n, k, c⟩, (Prod.snd p).value = p.1 := by
  intro p hp
  rw [dictInsert] at hp
  by_cases hm : d.any (fun p => p.1 = k) = true
  · rw [if_pos hm] at hp
    rcases List.mem_map.mp hp with ⟨q, hq, he⟩
    by_cases hc : q.1 = k
    · rw [if_pos hc] at he
      rw [← he]
    · rw [if_neg hc] at he
      rw [← he]
      exact hd q hq
  · rw [if_neg hm] at hp
    rcases List.mem_append.mp hp with h1 | h1
    · exact hd p h1
    · rw [List.mem_singleton.mp h1]

theorem dictInsert_nodup (d : List (Int × Label)) (k : Int) (v : Label)
    (hd : (d.map Prod.fst).Nodup) :
    ((dictInsert d k v).map Prod.fst).Nodup := by
  by_cases h : k ∈ d.map Prod.fst
  · rw [map_fst_dictInsert_mem d k v h]
    exact hd
  · rw [map_fst_dictInsert_not_mem d k v h]
    simp [List.nodup_append, hd, h]

/-! ### Helper lemmas about `add_label` -/

theorem add_label_labels_eq (lut : LabelLUT) (n : String) (v : Int)
    (c : Option (List ℚ)) :
    ∃ col, (add_label lut n v c).labels = dictInsert lut.labels v ⟨n, v, col⟩ ∧
      (add_label lut n v c).colors = lut.colors := by
  cases c with
  | some c0 => exact ⟨c0, rfl, rfl⟩
  | none =>
    simp only [add_label]
    by_cases h : lut.next_color ≥ lut.colors.length
    · rw [if_pos h]
      exact ⟨fallbackColor, rfl, rfl⟩
    · rw [if_neg h]
      exact ⟨lut.colors.getD lut.next_color [], rfl, rfl⟩

theorem add_label_next_color_none (lut : LabelLUT) (n : String) (v : Int) :
    (add_label lut n v none).next_color =
      (if lut.next_color ≥ lut.colors.length then lut.next_color
       else lut.next_color + 1) := by
  simp only [add_label]
  by_cases h : lut.next_color ≥ lut.colors.length
  · rw [if_pos h, if_pos h]
  · rw [if_neg h, if_neg h]

theorem add_label_colors_eq (lut : LabelLUT) (n : String) (v : Int)
    (c : Option (List ℚ)) : (add_label lut n v c).colors = lut.colors := by
  obtain ⟨col, _, hc⟩ := add_label_labels_eq lut n v c
  exact hc

theorem countColorless_cons_some (n : String) (v : Int) (c0 : List ℚ)
    (ops : List (String × Int × Option (List ℚ))) :
    countColorless ((n, v, some c0) :: ops) = countColorless ops := by
  simp [countColorless, List.filter_cons]

theorem countColorless_cons_none (n : String) (v : Int)
    (ops : List (String × Int × Option (List ℚ))) :
    countColorless ((n, v, none) :: ops) = countColorless ops + 1 := by
  simp [countColorless, List.filter_cons]

theorem foldl_add_label_next_color
    (ops : List (String × Int × Option (List ℚ))) :
    ∀ lut : LabelLUT, lut.next_color ≤ lut.colors.length →
    ((ops.foldl (fun l op => add_label l op.1 op.2.1 op.2.2) lut).next_color =
      min (lut.next_color + countColorless ops) lut.colors.length) ∧
    ((ops.foldl (fun l op => add_label l op.1 op.2.1 op.2.2) lut).colors =
      lut.colors) := by
  induction ops with
  | nil =>
    intro lut h
    constructor
    · have h0 : countColorless [] = 0 := rfl
      simp only [List.foldl_nil, h0]
      omega
    · rfl
  | cons op ops ih =>
    intro lut h
    rw [List.foldl_cons]
    rcases op with ⟨n, v, c⟩
    cases c with
    | some c0 =>
      have hnc : (add_label lut n v (some c0)).next_color =
        lut.next_color := rfl
      have hcol : (add_label lut n v (some c0)).colors = lut.colors := rfl
      obtain ⟨g1, g2⟩ := ih (add_label lut n v (some c0))
        (by rw [hnc, hcol]; exact h)
      rw [g1, g2, hnc, hcol, countColorless_cons_some]
      exact ⟨rfl, rfl⟩
    | none =>
      by_cases hge : lut.next_color ≥ lut.colors.length
      · have hnc : (add_label lut n v none).next_color = lut.next_color := by
          rw [add_label_next_color_none, if_pos hge]
        have hcol := add_label_colors_eq lut n v none
        obtain ⟨g1, g2⟩ := ih (add_label lut n v none)
          (by rw [hnc, hcol]; exact h)
        rw [g1, g2, hnc, hcol, countColorless_cons_none]
        exact ⟨by omega, rfl⟩
      · have hnc : (add_label lut n v none).next_color =
            lut.next_color + 1 := by
          rw [add_label_next_color_none, if_neg hge]
        have hcol := add_label_colors_eq lut n v none
        obtain ⟨g1, g2⟩ := ih (add_label lut n v none)
          (by rw [hnc, hcol]; omega)
        rw [g1, g2, hnc, hcol, countColorless_cons_none]
        exact ⟨by omega, rfl⟩

/-- C8: on a fresh table with palette `cols`, after any operation
sequence `ops` the palette cursor equals the number of colourless calls
capped at the palette length; the next colourless `add_label` receives
`cols[i]` (for `i` the number of earlier colourless calls) while `i` is
within the palette and the fixed fallback colour `[0.85, 1.0, 1.0]`
afterwards; a call with an explicit colour never advances the cursor;
the `'default'` palette has 34 colours and `'spectrum'` has 12. -/
theorem labellut_palette_assignment (cols : List (List ℚ))
    (ops : List (String × Int × Option (List ℚ))) (n : String) (v : Int) :
    ((applyOps cols ops).next_color =
      min (countColorless ops) cols.length) ∧
    (∃ lab, dictLookup (add_label (applyOps cols ops) n v none).labels v =
        some lab ∧
      lab.color = (if countColorless ops < cols.length
        then cols.getD (countColorless ops) [] else fallbackColor)) ∧
    (∀ c0 : List ℚ,
      (add_label (applyOps cols ops) n v (some c0)).next_color =
        (applyOps cols ops).next_color) ∧
    defaultColors.length = 34 ∧ spectrumColors.length = 12 := by
  have hn : (applyOps cols ops).next_color =
      min (countColorless ops) cols.length := by
    have := (foldl_add_label_next_color ops ⟨0, [], cols⟩ (by simp)).1
    simpa [applyOps] using this
  have hcols : (applyOps cols ops).colors = cols := by
    have := (foldl_add_label_next_color ops ⟨0, [], cols⟩ (by simp)).2
    simpa [applyOps] using this
  refine ⟨hn, ?_, fun c0 => rfl, rfl, rfl⟩
  by_cases hlt : countColorless ops < cols.length
  · have hcond : ¬ (applyOps cols ops).next_color ≥
        (applyOps cols ops).colors.length := by
      rw [hn, hcols]
      omega
    refine ⟨⟨n, v, (applyOps cols ops).colors.getD
      (applyOps cols ops).next_color []⟩, ?_, ?_⟩
    · simp only [add_label, if_neg hcond]
      exact dictInsert_lookup _ _ _
    · rw [hcols, hn, Nat.min_eq_left (Nat.le_of_lt hlt), if_pos hlt]
  · have hcond : (applyOps cols ops).next_color ≥
        (applyOps cols ops).colors.length := by
      rw [hn, hcols]
      omega
    refine ⟨⟨n, v, fallbackColor⟩, ?_, ?_⟩
    · simp only [add_label, if_pos hcond]
      exact dictInsert_lookup _ _ _
    · rw [if_neg hlt]

/-! ### The label-table invariant -/

theorem add_label_inv (lut : LabelLUT) (n : String) (v : Int)
    (c : Option (List ℚ))
    (h1 : (lut.labels.map Prod.fst).Nodup)
    (h2 : ∀ p ∈ lut.labels, (Prod.snd p).value = p.1) :
    (((add_label lut n v c).labels.map Prod.fst).Nodup) ∧
    (∀ p ∈ (add_label lut n v c).labels, (Prod.snd p).value = p.1) := by
  obtain ⟨col, hlab, _⟩ := add_label_labels_eq lut n v c
  rw [hlab]
  exact ⟨dictInsert_nodup _ _ _ h1, dictInsert_value_inv _ _ _ _ h2⟩

theorem foldl_add_label_inv (ops : List (String × Int × Option (List ℚ))) :
    ∀ lut : LabelLUT, (lut.labels.map Prod.fst).Nodup →
    (∀ p ∈ lut.labels, (Prod.snd p).value = p.1) →
    (((ops.foldl (fun l op => add_label l op.1 op.2.1 op.2.2) lut).labels.map
        Prod.fst).Nodup) ∧
    (∀ p ∈ (ops.foldl (fun l op => add_label l op.1 op.2.1 op.2.2) lut).labels,
      (Prod.snd p).value = p.1) := by
  induction ops with
  | nil =>
    intro lut h1 h2
    exact ⟨h1, h2⟩
  | cons op ops ih =>
    intro lut h1 h2
    rw [List.foldl_cons]
    obtain ⟨g1, g2⟩ := add_label_inv lut op.1 op.2.1 op.2.2 h1 h2
    exact ih _ g1 g2

/-- C6: after any sequence of `add_label` operations on a fresh
`LabelLUT`, the table's keys are distinct, every stored label's `value`
field equals the key it sits under, and an `add_label` whose value is
already present replaces the earlier entry in place: the key set is
unchanged and the key now maps to the newly passed name and value. -/
theorem labellut_table_invariant (cols : List (List ℚ))
    (ops : List (String × Int × Option (List ℚ))) :
    (((applyOps cols ops).labels.map Prod.fst).Nodup) ∧
    (∀ p ∈ (applyOps cols ops).labels, (Prod.snd p).value = p.1) ∧
    (∀ n v c, v ∈ (applyOps cols ops).labels.map Prod.fst →
      ((add_label (applyOps cols ops) n v c).labels.map Prod.fst =
        (applyOps cols ops).labels.map Prod.fst) ∧
      (∃ lab, dictLookup (add_label (applyOps cols ops) n v c).labels v =
          some lab ∧ lab.name = n ∧ lab.value = v)) := by
  obtain ⟨i1, i2⟩ := foldl_add_label_inv ops ⟨0, [], cols⟩ (by simp)
    (by intro p hp; simp at hp)
  refine ⟨i1, i2, fun n v c hv => ?_⟩
  obtain ⟨col, hlab, _⟩ := add_label_labels_eq (applyOps cols ops) n v c
  rw [hlab]
  exact ⟨map_fst_dictInsert_mem _ _ _ hv,
    ⟨⟨n, v, col⟩, dictInsert_lookup _ _ _, rfl, rfl⟩⟩

/-- C6 (witness): re-adding the present value `1` replaces its entry. -/
theorem labellut_table_invariant_witness :
    ∃ lab, dictLookup
      (add_label (applyOps [] [("one", 1, some [1])]) "two" 1 none).labels 1 =
        some lab ∧ lab.name = "two" ∧ lab.value = 1 :=
  ((labellut_table_invariant [] [("one", 1, some [1])]).2.2 "two" 1 none
    (by decide)).2

/-! ### The constructor's population of the table -/

theorem lookupName_eq (m : List (Int × String)) (k : Int) (s : String)
    (hm : (m.map Prod.fst).Nodup) (h : (k, s) ∈ m) :
    lookupName m k = s := by
  induction m with
  | nil => simp at h
  | cons p m ih =>
    rw [List.map_cons, List.nodup_cons] at hm
    rcases List.mem_cons.mp h with h1 | h1
    · rw [← h1]
      simp [lookupName]
    · have hp : ¬ p.1 = k := by
        intro hc
        have : k ∈ m.map Prod.fst := List.mem_map.mpr ⟨(k, s), h1, rfl⟩
        exact hm.1 (by rw [hc]; exact this)
      simp only [lookupName]
      rw [if_neg hp]
      exact ih hm.2 h1

theorem add_label_keys_fresh (lut : LabelLUT) (n : String) (v : Int)
    (c : Option (List ℚ)) (h : v ∉ lut.labels.map Prod.fst) :
    (add_label lut n v c).labels.map Prod.fst =
      lut.labels.map Prod.fst ++ [v] := by
  obtain ⟨col, hlab, _⟩ := add_label_labels_eq lut n v c
  rw [hlab]
  exact map_fst_dictInsert_not_mem _ _ _ h

theorem foldl_add_label_fresh_keys (f : Int → String) (ks : List Int) :
    ∀ lut : LabelLUT, ks.Nodup →
    (∀ k ∈ ks, k ∉ lut.labels.map Prod.fst) →
    ((ks.foldl (fun l k => add_label l (f k) k none) lut).labels.map
      Prod.fst) = lut.labels.map Prod.fst ++ ks := by
  induction ks with
  | nil =>
    intro lut _ _
    simp
  | cons k ks ih =>
    intro lut hnd hfresh
    rw [List.foldl_cons]
    have hk : k ∉ lut.labels.map Prod.fst :=
      hfresh k (List.mem_cons_self k ks)
    have hkeys := add_label_keys_fresh lut (f k) k none hk
    have hfresh' : ∀ k' ∈ ks,
        k' ∉ (add_label lut (f k) k none).labels.map Prod.fst := by
      intro k' hk' hmem
      rw [hkeys] at hmem
      rcases List.mem_append.mp hmem with h1 | h1
      · exact hfresh k' (List.mem_cons_of_mem k hk') h1
      · rw [List.nodup_cons] at hnd
        exact hnd.1 ((List.mem_singleton.mp h1) ▸ hk')
    rw [ih _ (List.Nodup.of_cons hnd) hfresh', hkeys]
    simp

theorem foldl_add_label_lookup_skip (f : Int → String) (ks : List Int) :
    ∀ (lut : LabelLUT) (k0 : Int), k0 ∉ ks →
    dictLookup
      ((ks.foldl (fun l k => add_label l (f k) k none) lut)).labels k0 =
      dictLookup lut.labels k0 := by
  induction ks with
  | nil =>
    intro lut k0 _
    rfl
  | cons k ks ih =>
    intro lut k0 h
    rw [List.foldl_cons, ih _ k0 (fun hc => h (List.mem_cons_of_mem k hc))]
    obtain ⟨col, hlab, _⟩ := add_label_labels_eq lut (f k) k none
    rw [hlab]
    exact dictInsert_lookup_other _ _ _ _
      (fun hc => h (by rw [hc]; exact List.mem_cons_self k ks))

theorem foldl_add_label_lookup (f : Int → String) (ks : List Int) :
    ∀ lut : LabelLUT, ks.Nodup → ∀ k ∈ ks,
    ∃ lab, dictLookup
      ((ks.foldl (fun l k => add_label l (f k) k none) lut)).labels k =
        some lab ∧ lab.name = f k ∧ lab.value = k := by
  induction ks with
  | nil =>
    intro lut _ k hk
    simp at hk
  | cons k1 ks ih =>
    intro lut hnd k hk
    rw [List.foldl_cons]
    rcases List.mem_cons.mp hk with h1 | h1
    · subst h1
      rw [foldl_add_label_lookup_skip f ks _ k (List.nodup_cons.mp hnd).1]
      obtain ⟨col, hlab, _⟩ := add_label_labels_eq lut (f k) k none
      rw [hlab]
      exact ⟨⟨f k, k, col⟩, dictInsert_lookup _ _ _, rfl, rfl⟩
    · exact ih _ (List.nodup_cons.mp hnd).2 k h1

/-- C7: constructing `LabelLUT(label_to_names)` over a dict with
distinct keys populates the table with exactly one entry per key, keyed
and valued by the key and named by the dict's name for it, and the
entries are inserted in increasing key order (the order that drives
automatic colour assignment). -/
theorem labellut_init_populates (m : List (Int × String)) (cm : String)
    (cols : List (List ℚ)) (hm : (m.map Prod.fst).Nodup)
    (hcm : COLORS cm = some cols) :
    ∃ lut, LabelLUT.init (some m) cm = some lut ∧
      lut.labels.map Prod.fst =
        List.insertionSort (· ≤ ·) (m.map Prod.fst) ∧
      lut.labels.length = m.length ∧
      (∀ k s, (k, s) ∈ m → ∃ lab, dictLookup lut.labels k = some lab ∧
        lab.name = s ∧ lab.value = k) := by
  have hnd : (List.insertionSort (· ≤ ·) (m.map Prod.fst)).Nodup :=
    (List.perm_insertionSort (· ≤ ·) (m.map Prod.fst)).nodup_iff.mpr hm
  have hfresh : ∀ k ∈ List.insertionSort (· ≤ ·) (m.map Prod.fst),
      k ∉ (⟨0, [], cols⟩ : LabelLUT).labels.map Prod.fst := by
    intro k _ hc
    simp at hc
  have hkeys := foldl_add_label_fresh_keys (fun k => lookupName m k)
    (List.insertionSort (· ≤ ·) (m.map Prod.fst)) ⟨0, [], cols⟩ hnd hfresh
  refine ⟨(List.insertionSort (· ≤ ·) (m.map Prod.fst)).foldl
      (fun l k => add_label l (lookupName m k) k none) ⟨0, [], cols⟩,
    ?_, ?_, ?_, ?_⟩
  · rw [LabelLUT.init, hcm]
    rfl
  · rw [hkeys]
    simp
  · have hlen := congrArg List.length hkeys
    simp only [List.length_map, List.length_append, List.length_nil,
      List.length_insertionSort] at hlen
    simpa using hlen
  · intro k s hks
    have hkmem : k ∈ List.insertionSort (· ≤ ·) (m.map Prod.fst) :=
      (List.mem_insertionSort (· ≤ ·)).mpr
        (List.mem_map.mpr ⟨(k, s), hks, rfl⟩)
    obtain ⟨lab, hlook, hname, hval⟩ := foldl_add_label_lookup
      (fun k => lookupName m k)
      (List.insertionSort (· ≤ ·) (m.map Prod.fst)) ⟨0, [], cols⟩ hnd k hkmem
    exact ⟨lab, hlook, by rw [hname]; exact lookupName_eq m k s hm hks, hval⟩

/-- C7 (witness): a two-entry dict with keys given in decreasing order
is populated in increasing key order. -/
theorem labellut_init_populates_witness :
    ∃ lut, LabelLUT.init (some [(2, "b"), (1, "a")]) "default" = some lut ∧
      lut.labels.map Prod.fst =
        List.insertionSort (· ≤ ·) ([(2, "b"), (1, "a")].map Prod.fst) ∧
      lut.labels.length = [(2, "b"), (1, "a")].length ∧
      (∀ k s, (k, s) ∈ [(2, "b"), (1, "a")] →
        ∃ lab, dictLookup lut.labels k = some lab ∧
          lab.name = s ∧ lab.value = k) :=
  labellut_init_populates [(2, "b"), (1, "a")] "default" defaultColors
    (by decide) rfl

/-! ### Test-time accumulation and finalization -/

theorem possibilities_all_iff (poss : List ℚ) :
    ((poss.filter (fun x => end_threshold < x)).length = poss.length) ↔
      ∀ x ∈ poss, end_threshold < x := by
  rw [length_filter_eq_length_iff]
  simp

theorem begin_cloud_ori_test_probs (mh : ModelHooks ι ρ) (st : TestState)
    (sampler : Sampler) :
    (begin_cloud mh st sampler).ori_test_probs = st.ori_test_probs := by
  rw [begin_cloud]
  split <;> rfl

theorem begin_cloud_ori_test_labels (mh : ModelHooks ι ρ) (st : TestState)
    (sampler : Sampler) :
    (begin_cloud mh st sampler).ori_test_labels = st.ori_test_labels := by
  rw [begin_cloud]
  split <;> rfl

theorem begin_cloud_complete_infer (mh : ModelHooks ι ρ) (st : TestState)
    (sampler : Sampler) :
    (begin_cloud mh st sampler).complete_infer =
      (if st.curr_cloud_id ≠ (sampler.cloud_id : Int) then false
       else st.complete_infer) := by
  by_cases h : st.curr_cloud_id ≠ (sampler.cloud_id : Int)
  · rw [begin_cloud, if_pos h, if_pos h]
  · rw [begin_cloud, if_neg h, if_neg h]

theorem accumulate_ori_test_probs (mh : ModelHooks ι ρ) (st : TestState)
    (sampler : Sampler) (inputs : ι) (results : ρ) :
    (accumulate mh st sampler inputs results).ori_test_probs =
      st.ori_test_probs := by
  show (begin_cloud mh st sampler).ori_test_probs = st.ori_test_probs
  exact begin_cloud_ori_test_probs mh st sampler

theorem accumulate_ori_test_labels (mh : ModelHooks ι ρ) (st : TestState)
    (sampler : Sampler) (inputs : ι) (results : ρ) :
    (accumulate mh st sampler inputs results).ori_test_labels =
      st.ori_test_labels := by
  show (begin_cloud mh st sampler).ori_test_labels = st.ori_test_labels
  exact begin_cloud_ori_test_labels mh st sampler

theorem accumulate_complete_infer (mh : ModelHooks ι ρ) (st : TestState)
    (sampler : Sampler) (inputs : ι) (results : ρ) :
    (accumulate mh st sampler inputs results).complete_infer =
      (begin_cloud mh st sampler).complete_infer := rfl

/-- C1: on a test-split sampler, one `update_tests` call finalizes the
current cloud — appends its accumulated probabilities and labels,
projected through `proj_inds`, to `ori_test_probs`/`ori_test_labels`
and sets `complete_infer` — exactly when every entry of the sampler's
possibility array for the current cloud exceeds the coverage threshold
`0.5`; otherwise the call only folds this window into the cloud's
buffers via `model.update_probs`, leaving `ori_test_probs` and
`ori_test_labels` untouched. -/
theorem update_tests_finalize_iff (ι ρ : Type) (mh : ModelHooks ι ρ)
    (st : TestState) (sampler : Sampler) (inputs : ι) (results : ρ)
    (hsplit : sampler.split = "test") :
    ((∀ x ∈ sampler.possibilities.getD sampler.cloud_id [],
        end_threshold < x) ↔
      ((update_tests mh st sampler inputs results).complete_infer = true ∧
       (update_tests mh st sampler inputs results).ori_test_probs =
         st.ori_test_probs ++
           [(finalize_proj mh sampler.cloud_id
               ((accumulate mh st sampler inputs results).test_probs.getD
                 sampler.cloud_id [])).map
             (fun i =>
               ((accumulate mh st sampler inputs results).test_probs.getD
                 sampler.cloud_id []).getD i [])] ∧
       (update_tests mh st sampler inputs results).ori_test_labels =
         st.ori_test_labels ++
           [(finalize_proj mh sampler.cloud_id
               ((accumulate mh st sampler inputs results).test_probs.getD
                 sampler.cloud_id [])).map
             (fun i =>
               ((accumulate mh st sampler inputs results).test_labels.getD
                 sampler.cloud_id []).getD i 0)])) ∧
    ((¬ ∀ x ∈ sampler.possibilities.getD sampler.cloud_id [],
        end_threshold < x) →
      (update_tests mh st sampler inputs results =
        accumulate mh st sampler inputs results ∧
       (accumulate mh st sampler inputs results).ori_test_probs =
         st.ori_test_probs ∧
       (accumulate mh st sampler inputs results).ori_test_labels =
         st.ori_test_labels ∧
       (accumulate mh st sampler inputs results).complete_infer =
         (if st.curr_cloud_id ≠ (sampler.cloud_id : Int) then false
          else st.complete_infer) ∧
       (accumulate mh st sampler inputs results).test_probs =
         (begin_cloud mh st sampler).test_probs.set sampler.cloud_id
           (mh.update_probs inputs results
             ((begin_cloud mh st sampler).test_probs.getD sampler.cloud_id [])
             ((begin_cloud mh st sampler).test_labels.getD sampler.cloud_id
               [])).1)) := by
  constructor
  · constructor
    · intro hall
      have hcond : sampler.split = "test" ∧
          ((sampler.possibilities.getD sampler.cloud_id []).filter
            (fun x => end_threshold < x)).length =
            (sampler.possibilities.getD sampler.cloud_id []).length :=
        ⟨hsplit, (possibilities_all_iff _).mpr hall⟩
      simp only [update_tests]
      rw [if_pos hcond]
      exact ⟨rfl, by rw [accumulate_ori_test_probs],
        by rw [accumulate_ori_test_labels]⟩
    · rintro ⟨hci, hopr, holb⟩
      by_contra hnall
      have hcond : ¬ (sampler.split = "test" ∧
          ((sampler.possibilities.getD sampler.cloud_id []).filter
            (fun x => end_threshold < x)).length =
            (sampler.possibilities.getD sampler.cloud_id []).length) :=
        fun hc => hnall ((possibilities_all_iff _).mp hc.2)
      simp only [update_tests] at hopr
      rw [if_neg hcond, accumulate_ori_test_probs] at hopr
      exact self_ne_append_singleton _ _ hopr.symm
  · intro hnall
    have hcond : ¬ (sampler.split = "test" ∧
        ((sampler.possibilities.getD sampler.cloud_id []).filter
          (fun x => end_threshold < x)).length =
          (sampler.possibilities.getD sampler.cloud_id []).length) :=
      fun hc => hnall ((possibilities_all_iff _).mp hc.2)
    refine ⟨?_, accumulate_ori_test_probs mh st sampler inputs results,
      accumulate_ori_test_labels mh st sampler inputs results, ?_, rfl⟩
    · simp only [update_tests]
      rw [if_neg hcond]
    · rw [accumulate_complete_infer, begin_cloud_complete_infer]

/-- C1 (witness): a single-point cloud whose possibility already exceeds
the threshold finalizes on the first test-split call. -/
theorem update_tests_finalize_iff_witness :
    samplerW.split = "test" ∧
    (update_tests modelHooksW testStateW samplerW () ()).complete_infer =
      true :=
  ⟨rfl,
    (((update_tests_finalize_iff Unit Unit modelHooksW testStateW samplerW
      () () rfl).1).mp (by
        intro x hx
        have hx1 : x = 1 := by simpa [samplerW] using hx
        rw [hx1, end_threshold]
        norm_num)).1⟩

end Open3DML
